import Mathlib

/-!
Verification of the CityHash64-style hashing core in
`supersonic/base/infrastructure/hasher.h`.

The byte buffer is modelled as a total function `s : Nat → Nat`; a read of the
byte at offset `i` is `s i % 256` (memory holds bytes).  All 64-bit machine
arithmetic is modelled on `Nat` with explicit reduction modulo `2 ^ 64`.
`Fetch64`/`Fetch32` are the little-endian unaligned loads (the
`WORDS_BIGENDIAN` macro is not defined on the reference target, so
`uint64_in_expected_order` is the identity).
-/

def M64 : Nat := 2 ^ 64

def add64 (a b : Nat) : Nat := (a + b) % M64

def mul64 (a b : Nat) : Nat := (a * b) % M64

/-- The byte stored at offset `i` of buffer `s`. -/
def byteAt (s : Nat → Nat) (i : Nat) : Nat := s i % 256

/-- Source function `Fetch64(p)`: `UNALIGNED_LOAD64`, eight bytes little-endian (hasher.h:22). -/
def Fetch64 (s : Nat → Nat) (i : Nat) : Nat :=
  byteAt s i + byteAt s (i + 1) * 2 ^ 8 + byteAt s (i + 2) * 2 ^ 16 +
  byteAt s (i + 3) * 2 ^ 24 + byteAt s (i + 4) * 2 ^ 32 + byteAt s (i + 5) * 2 ^ 40 +
  byteAt s (i + 6) * 2 ^ 48 + byteAt s (i + 7) * 2 ^ 56

/-- Source function `Fetch32(p)`: `UNALIGNED_LOAD32`, four bytes little-endian (hasher.h:26). -/
def Fetch32 (s : Nat → Nat) (i : Nat) : Nat :=
  byteAt s i + byteAt s (i + 1) * 2 ^ 8 + byteAt s (i + 2) * 2 ^ 16 +
  byteAt s (i + 3) * 2 ^ 24

def k0 : Nat := 0xc3a5c85c97cb3127

def k1 : Nat := 0xb492b66fbe98f273

def k2 : Nat := 0x9ae16a3b2f90404f

/-- Source function `ShiftMix(val)`: `val ^ (val >> 47)` (hasher.h:37). -/
def ShiftMix (val : Nat) : Nat := val ^^^ (val >>> 47)

/-- Sign extension of one byte to 64 bits.  In `LoadBytes` the buffer has
element type `char`, which is signed on the reference target (gcc, x86-64
Linux), so a byte `≥ 0x80` is sign-extended before the bitwise or. -/
def sext8 (b : Nat) : Nat := if b < 128 then b else M64 - 256 + b

/-- The do-while loop of `LoadBytes` (hasher.h:45-47): indices `n-1` down
to `0`, each step `val = (val << 8) | buf[i]`. -/
def lbGo (s : Nat → Nat) (val : Nat) : Nat → Nat
  | 0 => val
  | n + 1 => lbGo s (((val <<< 8) % M64) ||| sext8 (byteAt s n)) n

/-- Source function `LoadBytes(buf, len)` (hasher.h:41-51), for `1 ≤ len ≤ 8`. -/
def LoadBytes (s : Nat → Nat) (len : Nat) : Nat := lbGo s 0 len

/-- Source function `Rotate(val, shift)` (hasher.h:90-93). -/
def Rotate (val shift : Nat) : Nat :=
  if shift = 0 then val else (val >>> shift) ||| ((val <<< (64 - shift)) % M64)

/-- Specification: the right rotation of a 64-bit value `v` by `s` bits, for
`s < 64`: the low `s` bits move to the top, the rest shift down. -/
def rotrSpec (v s : Nat) : Nat := v / 2 ^ s + v % 2 ^ s * 2 ^ (64 - s)

/-- Modelled from the spec: the 128-bit value type used by `Hash128to64`.
The repository's `uint128` class (`supersonic/utils/int128.h`, not under
`src/`) stores a high and a low 64-bit half; its two-argument constructor
`uint128(top, bottom)` takes the high half first. -/
structure U128 where
  hi : Nat
  lo : Nat

/-- Modelled from the spec: `uint128(u, v)` builds the 128-bit value with
high half `u` and low half `v`. -/
def uint128 (u v : Nat) : U128 := ⟨u, v⟩

def Uint128Low64 (x : U128) : Nat := x.lo

def Uint128High64 (x : U128) : Nat := x.hi

/-- Source function `Hash128to64(x)` (hasher.h:77-86). -/
def Hash128to64 (x : U128) : Nat :=
  let kMul : Nat := 0x9ddfea08eb382d69
  let a := mul64 (Uint128Low64 x ^^^ Uint128High64 x) kMul
  let a2 := a ^^^ (a >>> 47)
  let b := mul64 (Uint128High64 x ^^^ a2) kMul
  let b2 := b ^^^ (b >>> 47)
  mul64 b2 kMul

/-- Source function `HashLen16(u, v)` — the fixed-multiplier overload (hasher.h:95-97). -/
def HashLen16 (u v : Nat) : Nat := Hash128to64 (uint128 u v)

/-- Source function `HashLen16(u, v, mul)` — the explicit-multiplier overload (hasher.h:99-107). -/
def HashLen16mul (u v mul : Nat) : Nat :=
  let a := mul64 (u ^^^ v) mul
  let a2 := a ^^^ (a >>> 47)
  let b := mul64 (v ^^^ a2) mul
  let b2 := b ^^^ (b >>> 47)
  mul64 b2 mul

/-- Source function `HashLen0to16(s, len)` (hasher.h:109-132). -/
def HashLen0to16 (s : Nat → Nat) (len : Nat) : Nat :=
  if 8 ≤ len then
    let mul := add64 k2 (mul64 len 2)
    let a := add64 (Fetch64 s 0) k2
    let b := Fetch64 s (len - 8)
    let c := add64 (mul64 (Rotate b 37) mul) a
    let d := mul64 (add64 (Rotate a 25) b) mul
    HashLen16mul c d mul
  else if 4 ≤ len then
    let mul := add64 k2 (mul64 len 2)
    let a := Fetch32 s 0
    HashLen16mul (add64 len ((a <<< 3) % M64)) (Fetch32 s (len - 4)) mul
  else if 0 < len then
    let a := byteAt s 0
    let b := byteAt s (len >>> 1)
    let c := byteAt s (len - 1)
    let y := (a + (b <<< 8)) % 2 ^ 32
    let z := (len + (c <<< 2)) % 2 ^ 32
    mul64 (ShiftMix (mul64 y k2 ^^^ mul64 z k0)) k2
  else k2

/-- Source function `HashLen17to32(s, len)` (hasher.h:136-144). -/
def HashLen17to32 (s : Nat → Nat) (len : Nat) : Nat :=
  let mul := add64 k2 (mul64 len 2)
  let a := mul64 (Fetch64 s 0) k1
  let b := Fetch64 s 8
  let c := mul64 (Fetch64 s (len - 8)) mul
  let d := mul64 (Fetch64 s (len - 16)) k2
  HashLen16mul (add64 (add64 (Rotate (add64 a b) 43) (Rotate c 30)) d)
    (add64 (add64 a (Rotate (add64 b k2) 18)) c) mul

/-- Source function `bswap_64(v)`: the standard 64-bit byte-order reversal primitive. -/
def bswap64 (v : Nat) : Nat :=
  v >>> 56 % 256 + (v >>> 48 % 256) * 2 ^ 8 + (v >>> 40 % 256) * 2 ^ 16 +
  (v >>> 32 % 256) * 2 ^ 24 + (v >>> 24 % 256) * 2 ^ 32 + (v >>> 16 % 256) * 2 ^ 40 +
  (v >>> 8 % 256) * 2 ^ 48 + v % 256 * 2 ^ 56

/-- Source function `HashLen33to64(s, len)` (hasher.h:171-190). -/
def HashLen33to64 (s : Nat → Nat) (len : Nat) : Nat :=
  let mul := add64 k2 (mul64 len 2)
  let a := mul64 (Fetch64 s 0) k2
  let b := Fetch64 s 8
  let c := Fetch64 s (len - 24)
  let d := Fetch64 s (len - 32)
  let e := mul64 (Fetch64 s 16) k2
  let f := mul64 (Fetch64 s 24) 9
  let g := Fetch64 s (len - 8)
  let h := mul64 (Fetch64 s (len - 16)) mul
  let u := add64 (Rotate (add64 a g) 43) (mul64 (add64 (Rotate b 30) c) 9)
  let v := add64 (add64 (add64 a g ^^^ d) f) 1
  let w := add64 (bswap64 (mul64 (add64 u v) mul)) h
  let x := add64 (Rotate (add64 e f) 42) c
  let y := mul64 (add64 (bswap64 (mul64 (add64 v w) mul)) g) mul
  let z := add64 (add64 e f) c
  let a2 := add64 (bswap64 (add64 (mul64 (add64 x z) mul) y)) b
  let b2 := mul64 (ShiftMix (add64 (add64 (mul64 (add64 z a2) mul) d) h)) mul
  add64 b2 x

/-- Source function `WeakHashLen32WithSeeds(w, x, y, z, a, b)` (hasher.h:148-157). -/
def WeakHashLen32WithSeeds (w x y z a b : Nat) : Nat × Nat :=
  let a1 := add64 a w
  let b1 := Rotate (add64 (add64 b a1) z) 21
  let c := a1
  let a2 := add64 a1 x
  let a3 := add64 a2 y
  let b2 := add64 b1 (Rotate a3 44)
  (add64 a3 z, add64 b2 c)

/-- Source function `WeakHashLen32WithSeeds(s, a, b)` — the buffer overload (hasher.h:160-168). -/
def WeakHashLen32WithSeedsAt (s : Nat → Nat) (i a b : Nat) : Nat × Nat :=
  WeakHashLen32WithSeeds (Fetch64 s i) (Fetch64 s (i + 8)) (Fetch64 s (i + 16))
    (Fetch64 s (i + 24)) a b

/-- The five-accumulator rolling state of the large-input engine:
`x`, `y`, `z` and the two weak-hash pairs `v`, `w`. -/
structure CityState where
  x : Nat
  y : Nat
  z : Nat
  v : Nat × Nat
  w : Nat × Nat

/-- The seeding phase of `CityHash64` for `len > 64` (hasher.h:205-210): the
accumulator values in effect when the chunk loop is entered. -/
def citySeed (s : Nat → Nat) (len : Nat) : CityState :=
  let x0 := Fetch64 s (len - 40)
  let y := add64 (Fetch64 s (len - 16)) (Fetch64 s (len - 56))
  let z := HashLen16 (add64 (Fetch64 s (len - 48)) len) (Fetch64 s (len - 24))
  let v := WeakHashLen32WithSeedsAt s (len - 64) len z
  let w := WeakHashLen32WithSeedsAt s (len - 32) (add64 y k1) x0
  let x := add64 (mul64 x0 k1) (Fetch64 s 0)
  ⟨x, y, z, v, w⟩

/-- One body of the 64-byte chunk loop (hasher.h:215-222), reading the chunk
that starts at offset `off`; the final `std::swap(z, x)` is reflected in the
`x`/`z` fields of the result. -/
def chunkStep (s : Nat → Nat) (off : Nat) (st : CityState) : CityState :=
  let x1 := mul64 (Rotate (add64 (add64 (add64 st.x st.y) st.v.1) (Fetch64 s (off + 8))) 37) k1
  let y1 := mul64 (Rotate (add64 (add64 st.y st.v.2) (Fetch64 s (off + 48))) 42) k1
  let x2 := x1 ^^^ st.w.2
  let y2 := add64 y1 (add64 st.v.1 (Fetch64 s (off + 40)))
  let z1 := mul64 (Rotate (add64 st.z st.w.1) 33) k1
  let v' := WeakHashLen32WithSeedsAt s off (mul64 st.v.2 k1) (add64 x2 st.w.1)
  let w' := WeakHashLen32WithSeedsAt s (off + 32) (add64 z1 st.w.2) (add64 y2 (Fetch64 s (off + 16)))
  ⟨z1, y2, x2, v', w'⟩

/-- The do-while chunk loop of `CityHash64` (hasher.h:214-225), with the
decremented length modelled by truncated `Nat` subtraction (`len` is a
positive multiple of 64 at every entry from `CityHash64`, where size_t and
truncated subtraction agree).  The exit test `len != 0` is taken after
`len -= 64`; over `Nat`, `l - 64 = 0 ↔ l ≤ 64`, and the guard is phrased
with `≤` so that Lean can compile the recursion's equations.  `loopW` below
keeps the exact `= 0` comparison with size_t wraparound. -/
def loopGo (s : Nat → Nat) (off : Nat) (st : CityState) (l : Nat) : CityState :=
  let st' := chunkStep s off st
  if l ≤ 64 then st' else loopGo s (off + 64) st' (l - 64)
termination_by l
decreasing_by omega

/-- The chunk loop unrolled as `n` iterations, the read cursor advancing by
64 bytes each iteration. -/
def loopN (s : Nat → Nat) (off : Nat) (st : CityState) : Nat → CityState
  | 0 => st
  | n + 1 => loopN s (off + 64) (chunkStep s off st) n

/-- The do-while chunk loop with the loop counter given exact size_t
semantics (`len -= 64` wraps modulo `2 ^ 64`) and an explicit fuel bound:
`none` means the loop did not terminate within `fuel` iterations. -/
def loopW (s : Nat → Nat) : Nat → Nat → CityState → Nat → Option CityState
  | 0, _, _, _ => none
  | fuel + 1, off, st, l =>
    let st' := chunkStep s off st
    let l' := (l + (M64 - 64)) % M64
    if l' = 0 then some st' else loopW s fuel (off + 64) st' l'

/-- The number of iterations the do-while loop (hasher.h:214-225) performs
when entered with counter `l`: one iteration runs, then the loop repeats
unless the decremented counter is zero (`l - 64 = 0 ↔ l ≤ 64` over `Nat`). -/
def iterCountGo (l : Nat) : Nat :=
  if l ≤ 64 then 1 else 1 + iterCountGo (l - 64)
termination_by l
decreasing_by omega

/-- The number of chunk-loop iterations `CityHash64` performs on an input of
length `len > 64`: the loop is entered with counter `(len - 1) & ~63`. -/
def cityIterCount (len : Nat) : Nat := iterCountGo ((len - 1) &&& (M64 - 64))

/-- The `len > 64` branch of `CityHash64` (hasher.h:203-227). -/
def cityLong (s : Nat → Nat) (len : Nat) : Nat :=
  let st := citySeed s len
  let l0 := (len - 1) &&& (M64 - 64)
  let fin := loopGo s 0 st l0
  HashLen16 (add64 (add64 (HashLen16 fin.v.1 fin.w.1) (mul64 (ShiftMix fin.y) k1)) fin.z)
    (add64 (HashLen16 fin.v.2 fin.w.2) fin.x)

/-- Source function `CityHash64(s, len)` (hasher.h:192-228). -/
def CityHash64 (s : Nat → Nat) (len : Nat) : Nat :=
  if len ≤ 32 then
    if len ≤ 16 then HashLen0to16 s len else HashLen17to32 s len
  else if len ≤ 64 then HashLen33to64 s len
  else cityLong s len

/-! ### Bitwise helper lemmas -/

theorem or_mul_pow_eq_add : ∀ (m a b : Nat), a < 2 ^ m → b * 2 ^ m ||| a = b * 2 ^ m + a := by
  intro m
  induction m with
  | zero =>
    intro a b ha
    have : a = 0 := by omega
    subst this
    simp
  | succ m ih =>
    intro a b ha
    have hx : b * 2 ^ (m + 1) = 2 * (b * 2 ^ m) := by ring
    have hpow : (2 : Nat) ^ (m + 1) = 2 * 2 ^ m := by ring
    have hdiv : (b * 2 ^ (m + 1) ||| a) / 2 = b * 2 ^ m + a / 2 := by
      rw [Nat.or_div_two, hx, Nat.mul_div_cancel_left _ (by norm_num)]
      exact ih (a / 2) b (by omega)
    have hxmod : b * 2 ^ (m + 1) % 2 = 0 := by
      rw [hx]
      exact Nat.mul_mod_right 2 _
    have hmod : (b * 2 ^ (m + 1) ||| a) % 2 = a % 2 := by
      rcases Nat.mod_two_eq_zero_or_one a with h | h
      · have : ¬((b * 2 ^ (m + 1) ||| a) % 2 = 1) := by
          rw [Nat.or_mod_two_eq_one]
          omega
        omega
      · have : (b * 2 ^ (m + 1) ||| a) % 2 = 1 := by
          rw [Nat.or_mod_two_eq_one]
          omega
        omega
    have hrec := Nat.div_add_mod (b * 2 ^ (m + 1) ||| a) 2
    have harec := Nat.div_add_mod a 2
    omega

theorem land_mask {n : Nat} (hn : n < 2 ^ 64) :
    n &&& (M64 - 64) = 64 * (n / 64) := by
  have hmask : M64 - 64 = (2 ^ 58 - 1) <<< 6 := by norm_num [M64, Nat.shiftLeft_eq]
  have hr : 64 * (n / 64) = n >>> 6 <<< 6 := by
    rw [Nat.shiftLeft_eq, Nat.shiftRight_eq_div_pow]
    show 64 * (n / 64) = n / 2 ^ 6 * 2 ^ 6
    norm_num [Nat.mul_comm]
  rw [hmask, hr]
  apply Nat.eq_of_testBit_eq
  intro i
  simp only [Nat.testBit_and, Nat.testBit_shiftLeft, Nat.testBit_shiftRight,
    Nat.testBit_two_pow_sub_one, ge_iff_le]
  by_cases h6 : 6 ≤ i
  · by_cases h64 : i < 64
    · have h1 : i - 6 < 58 := by omega
      have h2 : 6 + (i - 6) = i := by omega
      simp [h6, h1, h2]
    · have h1 : ¬(i - 6 < 58) := by omega
      have h2 : 6 + (i - 6) = i := by omega
      have h3 : n.testBit i = false :=
        Nat.testBit_lt_two_pow
          (lt_of_lt_of_le hn (Nat.pow_le_pow_right (by norm_num) (by omega)))
      simp [h6, h1, h2, h3]
  · simp [h6]

/-! ### Chunk-loop lemmas -/

theorem iterCountGo_mul64 : ∀ k : Nat, iterCountGo (64 * (k + 1)) = k + 1 := by
  intro k
  induction k with
  | zero =>
    rw [iterCountGo]
    norm_num
  | succ k ih =>
    rw [iterCountGo]
    have h : ¬(64 * (k + 1 + 1) ≤ 64) := by omega
    rw [if_neg h]
    have h2 : 64 * (k + 1 + 1) - 64 = 64 * (k + 1) := by omega
    rw [h2, ih]
    omega

theorem loopGo_eq_loopN (s : Nat → Nat) :
    ∀ (k off : Nat) (st : CityState),
      loopGo s off st (64 * (k + 1)) = loopN s off st (k + 1) := by
  intro k
  induction k with
  | zero =>
    intro off st
    rw [loopGo]
    norm_num
    rfl
  | succ k ih =>
    intro off st
    rw [loopGo]
    have h : ¬(64 * (k + 1 + 1) ≤ 64) := by omega
    rw [if_neg h]
    have h2 : 64 * (k + 1 + 1) - 64 = 64 * (k + 1) := by omega
    rw [h2, ih]
    rfl

theorem loopW_succ (s : Nat → Nat) (fuel off : Nat) (st : CityState) (l : Nat) :
    loopW s (fuel + 1) off st l =
      if (l + (M64 - 64)) % M64 = 0 then some (chunkStep s off st)
      else loopW s fuel (off + 64) (chunkStep s off st) ((l + (M64 - 64)) % M64) := rfl

theorem loopW_eq_loopN (s : Nat → Nat) :
    ∀ (k off : Nat) (st : CityState), 64 * (k + 1) < M64 →
      loopW s (k + 1) off st (64 * (k + 1)) = some (loopN s off st (k + 1)) := by
  intro k
  induction k with
  | zero =>
    intro off st _
    have h64 : (64 * (0 + 1) + (M64 - 64)) % M64 = 0 := by
      have h1 : 64 * (0 + 1) + (M64 - 64) = M64 := by norm_num [M64]
      rw [h1, Nat.mod_self]
    rw [loopW_succ, if_pos h64]
    rfl
  | succ k ih =>
    intro off st hlt
    have hM : (64 * (k + 1 + 1) + (M64 - 64)) % M64 = 64 * (k + 1) := by
      have h64 : (64 : Nat) ≤ M64 := by norm_num [M64]
      have h1 : 64 * (k + 1 + 1) + (M64 - 64) = M64 + 64 * (k + 1) := by omega
      rw [h1, Nat.add_mod_left]
      exact Nat.mod_eq_of_lt (by omega)
    have hne : ¬(64 * (k + 1) = 0) := by omega
    rw [loopW_succ, hM, if_neg hne]
    rw [ih (off + 64) (chunkStep s off st) (by omega)]
    rfl

/-! ### Read-set congruence lemmas: each function's result depends only on
the bytes it reads. -/

theorem Fetch64_congr {s s' : Nat → Nat} {i : Nat}
    (h : ∀ j, j < 8 → s (i + j) = s' (i + j)) : Fetch64 s i = Fetch64 s' i := by
  have h0 : s i = s' i := by simpa using h 0 (by norm_num)
  have h1 := h 1 (by norm_num)
  have h2 := h 2 (by norm_num)
  have h3 := h 3 (by norm_num)
  have h4 := h 4 (by norm_num)
  have h5 := h 5 (by norm_num)
  have h6 := h 6 (by norm_num)
  have h7 := h 7 (by norm_num)
  simp [Fetch64, byteAt, h0, h1, h2, h3, h4, h5, h6, h7]

theorem Fetch32_congr {s s' : Nat → Nat} {i : Nat}
    (h : ∀ j, j < 4 → s (i + j) = s' (i + j)) : Fetch32 s i = Fetch32 s' i := by
  have h0 : s i = s' i := by simpa using h 0 (by norm_num)
  have h1 := h 1 (by norm_num)
  have h2 := h 2 (by norm_num)
  have h3 := h 3 (by norm_num)
  simp [Fetch32, byteAt, h0, h1, h2, h3]

theorem Fetch64_congr_at {s s' : Nat → Nat} {i p : Nat}
    (h : ∀ j, j < 8 → s (i + (p + j)) = s' (i + (p + j))) :
    Fetch64 s (i + p) = Fetch64 s' (i + p) := by
  apply Fetch64_congr
  intro j hj
  have := h j hj
  rwa [← Nat.add_assoc] at this

theorem WeakAt_congr {s s' : Nat → Nat} {i : Nat}
    (h : ∀ j, j < 32 → s (i + j) = s' (i + j)) (a b : Nat) :
    WeakHashLen32WithSeedsAt s i a b = WeakHashLen32WithSeedsAt s' i a b := by
  have e0 : Fetch64 s i = Fetch64 s' i :=
    Fetch64_congr fun j hj => h j (by omega)
  have e8 : Fetch64 s (i + 8) = Fetch64 s' (i + 8) :=
    Fetch64_congr_at fun j hj => h (8 + j) (by omega)
  have e16 : Fetch64 s (i + 16) = Fetch64 s' (i + 16) :=
    Fetch64_congr_at fun j hj => h (16 + j) (by omega)
  have e24 : Fetch64 s (i + 24) = Fetch64 s' (i + 24) :=
    Fetch64_congr_at fun j hj => h (24 + j) (by omega)
  simp [WeakHashLen32WithSeedsAt, e0, e8, e16, e24]

theorem chunkStep_congr {s s' : Nat → Nat} {off : Nat}
    (h : ∀ j, j < 64 → s (off + j) = s' (off + j)) (st : CityState) :
    chunkStep s off st = chunkStep s' off st := by
  have e8 : Fetch64 s (off + 8) = Fetch64 s' (off + 8) :=
    Fetch64_congr_at fun j hj => h (8 + j) (by omega)
  have e16 : Fetch64 s (off + 16) = Fetch64 s' (off + 16) :=
    Fetch64_congr_at fun j hj => h (16 + j) (by omega)
  have e40 : Fetch64 s (off + 40) = Fetch64 s' (off + 40) :=
    Fetch64_congr_at fun j hj => h (40 + j) (by omega)
  have e48 : Fetch64 s (off + 48) = Fetch64 s' (off + 48) :=
    Fetch64_congr_at fun j hj => h (48 + j) (by omega)
  have w0 := @WeakAt_congr s s' off (fun j hj => h j (by omega))
  have w32 := @WeakAt_congr s s' (off + 32)
    (fun j hj => by have := h (32 + j) (by omega); rwa [← Nat.add_assoc] at this)
  simp [chunkStep, e8, e16, e40, e48, w0, w32]

theorem loopN_congr {s s' : Nat → Nat} :
    ∀ (n off : Nat) (st : CityState),
      (∀ j, j < 64 * n → s (off + j) = s' (off + j)) →
      loopN s off st n = loopN s' off st n := by
  intro n
  induction n with
  | zero => intro off st _; rfl
  | succ n ih =>
    intro off st h
    have hstep := chunkStep_congr (fun j hj => h j (by omega)) st
    simp only [loopN]
    rw [hstep]
    apply ih
    intro j hj
    have := h (64 + j) (by omega)
    rwa [← Nat.add_assoc] at this

theorem HashLen0to16_congr {s s' : Nat → Nat} {len : Nat}
    (H : ∀ i, i < len → s i = s' i) : HashLen0to16 s len = HashLen0to16 s' len := by
  by_cases h8 : 8 ≤ len
  · have e0 : Fetch64 s 0 = Fetch64 s' 0 :=
      Fetch64_congr fun j hj => H (0 + j) (by omega)
    have e1 : Fetch64 s (len - 8) = Fetch64 s' (len - 8) :=
      Fetch64_congr fun j hj => H ((len - 8) + j) (by omega)
    simp [HashLen0to16, h8, e0, e1]
  · by_cases h4 : 4 ≤ len
    · have e0 : Fetch32 s 0 = Fetch32 s' 0 :=
        Fetch32_congr fun j hj => H (0 + j) (by omega)
      have e1 : Fetch32 s (len - 4) = Fetch32 s' (len - 4) :=
        Fetch32_congr fun j hj => H ((len - 4) + j) (by omega)
      simp [HashLen0to16, h8, h4, e0, e1]
    · by_cases h0 : 0 < len
      · have hhalf : len >>> 1 < len := by
          rw [Nat.shiftRight_eq_div_pow]
          omega
        have b0 : s 0 = s' 0 := H 0 h0
        have b1 : s (len >>> 1) = s' (len >>> 1) := H _ hhalf
        have b2 : s (len - 1) = s' (len - 1) := H _ (by omega)
        simp [HashLen0to16, h8, h4, h0, byteAt, b0, b1, b2]
      · simp [HashLen0to16, h8, h4, h0]

theorem HashLen17to32_congr {s s' : Nat → Nat} {len : Nat} (hlen : 16 ≤ len)
    (H : ∀ i, i < len → s i = s' i) : HashLen17to32 s len = HashLen17to32 s' len := by
  have e0 : Fetch64 s 0 = Fetch64 s' 0 :=
    Fetch64_congr fun j hj => H (0 + j) (by omega)
  have e1 : Fetch64 s 8 = Fetch64 s' 8 :=
    Fetch64_congr fun j hj => H (8 + j) (by omega)
  have e2 : Fetch64 s (len - 8) = Fetch64 s' (len - 8) :=
    Fetch64_congr fun j hj => H ((len - 8) + j) (by omega)
  have e3 : Fetch64 s (len - 16) = Fetch64 s' (len - 16) :=
    Fetch64_congr fun j hj => H ((len - 16) + j) (by omega)
  simp [HashLen17to32, e0, e1, e2, e3]

theorem HashLen33to64_congr {s s' : Nat → Nat} {len : Nat} (hlen : 32 ≤ len)
    (H : ∀ i, i < len → s i = s' i) : HashLen33to64 s len = HashLen33to64 s' len := by
  have e0 : Fetch64 s 0 = Fetch64 s' 0 :=
    Fetch64_congr fun j hj => H (0 + j) (by omega)
  have e1 : Fetch64 s 8 = Fetch64 s' 8 :=
    Fetch64_congr fun j hj => H (8 + j) (by omega)
  have e2 : Fetch64 s 16 = Fetch64 s' 16 :=
    Fetch64_congr fun j hj => H (16 + j) (by omega)
  have e3 : Fetch64 s 24 = Fetch64 s' 24 :=
    Fetch64_congr fun j hj => H (24 + j) (by omega)
  have e4 : Fetch64 s (len - 24) = Fetch64 s' (len - 24) :=
    Fetch64_congr fun j hj => H ((len - 24) + j) (by omega)
  have e5 : Fetch64 s (len - 32) = Fetch64 s' (len - 32) :=
    Fetch64_congr fun j hj => H ((len - 32) + j) (by omega)
  have e6 : Fetch64 s (len - 8) = Fetch64 s' (len - 8) :=
    Fetch64_congr fun j hj => H ((len - 8) + j) (by omega)
  have e7 : Fetch64 s (len - 16) = Fetch64 s' (len - 16) :=
    Fetch64_congr fun j hj => H ((len - 16) + j) (by omega)
  simp [HashLen33to64, e0, e1, e2, e3, e4, e5, e6, e7]

theorem citySeed_congr {s s' : Nat → Nat} {len : Nat} (hlen : 64 < len)
    (H : ∀ i, i < len → s i = s' i) : citySeed s len = citySeed s' len := by
  have e40 : Fetch64 s (len - 40) = Fetch64 s' (len - 40) :=
    Fetch64_congr fun j hj => H ((len - 40) + j) (by omega)
  have e16 : Fetch64 s (len - 16) = Fetch64 s' (len - 16) :=
    Fetch64_congr fun j hj => H ((len - 16) + j) (by omega)
  have e56 : Fetch64 s (len - 56) = Fetch64 s' (len - 56) :=
    Fetch64_congr fun j hj => H ((len - 56) + j) (by omega)
  have e48 : Fetch64 s (len - 48) = Fetch64 s' (len - 48) :=
    Fetch64_congr fun j hj => H ((len - 48) + j) (by omega)
  have e24 : Fetch64 s (len - 24) = Fetch64 s' (len - 24) :=
    Fetch64_congr fun j hj => H ((len - 24) + j) (by omega)
  have e0 : Fetch64 s 0 = Fetch64 s' 0 :=
    Fetch64_congr fun j hj => H (0 + j) (by omega)
  have w64 := @WeakAt_congr s s' (len - 64)
    (fun j hj => H ((len - 64) + j) (by omega))
  have w32 := @WeakAt_congr s s' (len - 32)
    (fun j hj => H ((len - 32) + j) (by omega))
  simp [citySeed, e40, e16, e56, e48, e24, e0, w64, w32]

theorem cityLong_congr {s s' : Nat → Nat} {len : Nat} (hlen : 64 < len)
    (hlen2 : len < 2 ^ 64) (H : ∀ i, i < len → s i = s' i) :
    cityLong s len = cityLong s' len := by
  have hseed := citySeed_congr hlen H
  have hl0 : (len - 1) &&& (M64 - 64) = 64 * ((len - 1) / 64) := land_mask (by omega)
  have hN : (len - 1) / 64 = ((len - 1) / 64 - 1) + 1 := by omega
  have hloop : ∀ st, loopGo s 0 st ((len - 1) &&& (M64 - 64)) =
      loopGo s' 0 st ((len - 1) &&& (M64 - 64)) := by
    intro st
    rw [hl0, hN, loopGo_eq_loopN, loopGo_eq_loopN]
    apply loopN_congr
    intro j hj
    have hj2 : j < len := by omega
    simpa using H j hj2
  simp only [cityLong]
  rw [hseed, hloop (citySeed s' len)]

/-! ### Claim theorems -/

/-- Claim C1 (amended): for `64 < len < 2^64` the chunk loop of `CityHash64`
is entered with counter `(len - 1) & ~63 = 64 * ((len - 1) / 64)` and runs
exactly `(len - 1) / 64` iterations — the processed length is `len - 1`
rounded down to a multiple of 64, not `len` — each iteration consuming one
64-byte chunk and advancing the read cursor by 64 bytes (`loopN`), the loop
terminating when the counter reaches zero. -/
theorem chunkLoop_iterations (len : Nat) (h64 : 64 < len) (hlt : len < 2 ^ 64) :
    cityIterCount len = (len - 1) / 64 ∧
    (len - 1) &&& (M64 - 64) = 64 * ((len - 1) / 64) ∧
    ∀ (s : Nat → Nat) (st : CityState) (off : Nat),
      loopGo s off st ((len - 1) &&& (M64 - 64)) = loopN s off st ((len - 1) / 64) := by
  have hl0 : (len - 1) &&& (M64 - 64) = 64 * ((len - 1) / 64) := land_mask (by omega)
  have hN : (len - 1) / 64 = ((len - 1) / 64 - 1) + 1 := by omega
  refine ⟨?_, hl0, ?_⟩
  · rw [cityIterCount, hl0, hN, iterCountGo_mul64]
  · intro s st off
    rw [hl0, hN, loopGo_eq_loopN]

/-- Claim C1, witness: the amended statement applied at `len = 100`. -/
theorem chunkLoop_iterations_witness :
    cityIterCount 100 = (100 - 1) / 64 ∧
    (100 - 1) &&& (M64 - 64) = 64 * ((100 - 1) / 64) ∧
    loopGo (fun _ => 0) 0 ⟨1, 2, 3, (4, 5), (6, 7)⟩ ((100 - 1) &&& (M64 - 64)) =
      loopN (fun _ => 0) 0 ⟨1, 2, 3, (4, 5), (6, 7)⟩ ((100 - 1) / 64) :=
  ⟨(chunkLoop_iterations 100 (by norm_num) (by norm_num)).1,
   (chunkLoop_iterations 100 (by norm_num) (by norm_num)).2.1,
   (chunkLoop_iterations 100 (by norm_num) (by norm_num)).2.2 (fun _ => 0)
     ⟨1, 2, 3, (4, 5), (6, 7)⟩ 0⟩

/-- Claim C1, counterexample to the original statement: at `len = 128` the
loop performs `1` iteration, while `⌊len / 64⌋ = 2`. -/
theorem chunkLoop_iterations_counterexample :
    cityIterCount 128 = 1 ∧ (128 : Nat) / 64 = 2 ∧ cityIterCount 128 ≠ 128 / 64 := by
  have hland : (128 - 1) &&& (M64 - 64) = 64 := by decide
  have h : cityIterCount 128 = 1 := by
    rw [cityIterCount, hland, iterCountGo]
    norm_num
  refine ⟨h, by norm_num, ?_⟩
  rw [h]
  norm_num

/-- Claim C2 (code bug): on the reference target `char` is signed, so
`LoadBytes` sign-extends bytes `≥ 0x80` before the bitwise or.  At the
failing input `buf = [0x80]`, `len = 1`, the code returns
`0xFFFFFFFFFFFFFF80` — the bits above position `8 * len` are *not* zero and
the result is not the little-endian packing `0x80` the claim (and the spec's
packing contract) requires. -/
theorem loadBytes_sign_extension_bug :
    LoadBytes (fun _ => 0x80) 1 = 0xFFFFFFFFFFFFFF80 ∧
    LoadBytes (fun _ => 0x80) 1 ≠ 0x80 := by
  exact ⟨by decide, by decide⟩

/-- Claim C3: `CityHash64` reads only bytes at offsets in `[0, len)`: two
buffers that agree on those offsets (for any size_t length) hash
identically, in every tier — tail loads, the middle-byte index of the 1-3
byte band, and all per-chunk loads included. -/
theorem cityHash64_reads_within_length (s s' : Nat → Nat) (len : Nat)
    (hlen : len < 2 ^ 64) (H : ∀ i, i < len → s i = s' i) :
    CityHash64 s len = CityHash64 s' len := by
  by_cases h16 : len ≤ 16
  · have h32 : len ≤ 32 := by omega
    simp only [CityHash64, if_pos h32, if_pos h16]
    exact HashLen0to16_congr H
  · by_cases h32 : len ≤ 32
    · simp only [CityHash64, if_pos h32, if_neg h16]
      exact HashLen17to32_congr (by omega) H
    · by_cases h64 : len ≤ 64
      · simp only [CityHash64, if_neg h32, if_pos h64]
        exact HashLen33to64_congr (by omega) H
      · simp only [CityHash64, if_neg h32, if_neg h64]
        exact cityLong_congr (by omega) hlen H

/-- Claim C3, witness: two buffers that agree on the first 5 bytes and
differ beyond them hash identically at `len = 5`. -/
theorem cityHash64_reads_within_length_witness :
    CityHash64 (fun i => if i < 5 then 7 else 21) 5 =
      CityHash64 (fun i => if i < 5 then 7 else 99) 5 :=
  cityHash64_reads_within_length _ _ 5 (by norm_num) (fun i hi => by simp [hi])

/-- Claim C4 (amended): the pre-loop accumulators `x`, `y`, `z` of the
large-input engine are a function of the last 56 bytes, the *first 8 bytes*
(read by the update `x = x * k1 + Fetch64(s)` at hasher.h:210), and the
total length: two buffers of the same length `> 64` agreeing on those bytes
produce identical seeded `x`, `y`, `z`. -/
theorem citySeed_xyz_tail_and_head (s s' : Nat → Nat) (len : Nat)
    (hlen : 64 < len)
    (hTail : ∀ i, i < len → len - 56 ≤ i → s i = s' i)
    (hHead : ∀ i, i < 8 → s i = s' i) :
    (citySeed s len).x = (citySeed s' len).x ∧
    (citySeed s len).y = (citySeed s' len).y ∧
    (citySeed s len).z = (citySeed s' len).z := by
  have e40 : Fetch64 s (len - 40) = Fetch64 s' (len - 40) :=
    Fetch64_congr fun j hj => hTail ((len - 40) + j) (by omega) (by omega)
  have e16 : Fetch64 s (len - 16) = Fetch64 s' (len - 16) :=
    Fetch64_congr fun j hj => hTail ((len - 16) + j) (by omega) (by omega)
  have e56 : Fetch64 s (len - 56) = Fetch64 s' (len - 56) :=
    Fetch64_congr fun j hj => hTail ((len - 56) + j) (by omega) (by omega)
  have e48 : Fetch64 s (len - 48) = Fetch64 s' (len - 48) :=
    Fetch64_congr fun j hj => hTail ((len - 48) + j) (by omega) (by omega)
  have e24 : Fetch64 s (len - 24) = Fetch64 s' (len - 24) :=
    Fetch64_congr fun j hj => hTail ((len - 24) + j) (by omega) (by omega)
  have e0 : Fetch64 s 0 = Fetch64 s' 0 :=
    Fetch64_congr fun j hj => hHead (0 + j) (by omega)
  simp [citySeed, e40, e16, e56, e48, e24, e0]

/-- Claim C4, witness: the amended statement applied at `len = 70` to two
buffers agreeing on bytes 0-7 and 14-69 and differing on bytes 8-13. -/
theorem citySeed_xyz_tail_and_head_witness :
    (citySeed (fun i => if i < 8 then 1 else 2) 70).x =
      (citySeed (fun i => if i < 8 then 1 else if 14 ≤ i then 2 else 5) 70).x ∧
    (citySeed (fun i => if i < 8 then 1 else 2) 70).y =
      (citySeed (fun i => if i < 8 then 1 else if 14 ≤ i then 2 else 5) 70).y ∧
    (citySeed (fun i => if i < 8 then 1 else 2) 70).z =
      (citySeed (fun i => if i < 8 then 1 else if 14 ≤ i then 2 else 5) 70).z :=
  citySeed_xyz_tail_and_head _ _ 70 (by norm_num)
    (fun i h1 h2 => by
      have hn : ¬ i < 8 := by omega
      have h14 : 14 ≤ i := by omega
      simp [hn, h14])
    (fun i h => by simp [h])

/-- Claim C4, counterexample to the original statement: two 65-byte buffers
that agree byte-for-byte on their last 56 bytes (offsets 9-64) yet get
different pre-loop `x` accumulators, because `x` also reads the first
8 bytes and the buffers differ at offset 0. -/
theorem citySeed_last56_counterexample :
    (∀ i, i < 65 → 65 - 56 ≤ i →
      (fun j : Nat => if j = 0 then (1 : Nat) else 0) i = (fun _ : Nat => (0 : Nat)) i) ∧
    (citySeed (fun j => if j = 0 then 1 else 0) 65).x ≠ (citySeed (fun _ => 0) 65).x := by
  exact ⟨by decide, by decide⟩

/-- Claim C5: `CityHash64` routes purely by `len`: `HashLen0to16` for
`len ≤ 16`, `HashLen17to32` for `17 ≤ len ≤ 32`, `HashLen33to64` for
`33 ≤ len ≤ 64`, and the large-input engine (`cityLong`) for `len > 64`;
no other decision point influences the routing. -/
theorem cityHash64_dispatch (s : Nat → Nat) (len : Nat) :
    (len ≤ 16 → CityHash64 s len = HashLen0to16 s len) ∧
    (17 ≤ len → len ≤ 32 → CityHash64 s len = HashLen17to32 s len) ∧
    (33 ≤ len → len ≤ 64 → CityHash64 s len = HashLen33to64 s len) ∧
    (64 < len → CityHash64 s len = cityLong s len) := by
  refine ⟨fun h => ?_, fun h1 h2 => ?_, fun h1 h2 => ?_, fun h => ?_⟩
  · have h32 : len ≤ 32 := by omega
    simp [CityHash64, h, h32]
  · have hn : ¬ len ≤ 16 := by omega
    simp [CityHash64, h2, hn]
  · have hn : ¬ len ≤ 32 := by omega
    simp [CityHash64, hn, h2]
  · have hn1 : ¬ len ≤ 32 := by omega
    have hn2 : ¬ len ≤ 64 := by omega
    simp [CityHash64, hn1, hn2]

/-- Claim C5, witness: the dispatch equations at representative lengths
10, 20, 40 and 70. -/
theorem cityHash64_dispatch_witness :
    CityHash64 (fun _ => 0) 10 = HashLen0to16 (fun _ => 0) 10 ∧
    CityHash64 (fun _ => 0) 20 = HashLen17to32 (fun _ => 0) 20 ∧
    CityHash64 (fun _ => 0) 40 = HashLen33to64 (fun _ => 0) 40 ∧
    CityHash64 (fun _ => 0) 70 = cityLong (fun _ => 0) 70 :=
  ⟨(cityHash64_dispatch (fun _ => 0) 10).1 (by norm_num),
   (cityHash64_dispatch (fun _ => 0) 20).2.1 (by norm_num) (by norm_num),
   (cityHash64_dispatch (fun _ => 0) 40).2.2.1 (by norm_num) (by norm_num),
   (cityHash64_dispatch (fun _ => 0) 70).2.2.2 (by norm_num)⟩

/-- Claim C6: `CityHash64` on the empty input (`len = 0`) returns exactly
the constant `k2 = 0x9ae16a3b2f90404f`, independent of the buffer
contents. -/
theorem cityHash64_empty (s : Nat → Nat) :
    CityHash64 s 0 = k2 ∧ k2 = 0x9ae16a3b2f90404f :=
  ⟨rfl, rfl⟩

/-- Claim C7: for `v < 2^64` and `0 ≤ s < 64`, `Rotate(v, s)` is the right
rotation of `v` by `s` bits, and `Rotate(v, 0) = v` is the identity (the
shift-by-64 expression is never evaluated on the `shift = 0` branch). -/
theorem rotate_is_right_rotation (v s : Nat) (hv : v < 2 ^ 64) (hs : s < 64) :
    Rotate v s = rotrSpec v s ∧ Rotate v 0 = v := by
  constructor
  · by_cases h0 : s = 0
    · subst h0
      simp [Rotate, rotrSpec, Nat.mod_one]
    · rw [Rotate, if_neg h0]
      have hsplit : (2 : Nat) ^ 64 = 2 ^ s * 2 ^ (64 - s) := by
        rw [← pow_add]
        congr 1
        omega
      have h1 : (v <<< (64 - s)) % M64 = v % 2 ^ s * 2 ^ (64 - s) := by
        rw [Nat.shiftLeft_eq, M64, hsplit, Nat.mul_mod_mul_right]
      have h2 : v >>> s = v / 2 ^ s := Nat.shiftRight_eq_div_pow v s
      have hdiv : v / 2 ^ s < 2 ^ (64 - s) := by
        apply Nat.div_lt_of_lt_mul
        rw [← hsplit]
        exact hv
      rw [h1, h2, Nat.or_comm, or_mul_pow_eq_add (64 - s) (v / 2 ^ s) (v % 2 ^ s) hdiv,
        rotrSpec]
      omega
  · simp [Rotate]

/-- Claim C7, witness: the rotation equation at `v = 5`, `s = 1`. -/
theorem rotate_is_right_rotation_witness :
    Rotate 5 1 = rotrSpec 5 1 ∧ Rotate 5 0 = 5 :=
  rotate_is_right_rotation 5 1 (by norm_num) (by norm_num)

/-- Claim C8: totality and termination.  The embedding of `CityHash64` is a
total function; for `len > 64` (any size_t length) the chunk-loop counter
starts at `(len - 1) & ~63`, a positive multiple of 64, and the do-while
loop with exact size_t decrement semantics (`loopW`, counter wrapping
modulo `2^64`) terminates in exactly `(len - 1) / 64` iterations, returning
the value of the total loop (`loopGo`) used by `CityHash64`. -/
theorem chunkLoop_terminates (s : Nat → Nat) (len : Nat) (h64 : 64 < len)
    (hlt : len < 2 ^ 64) :
    0 < (len - 1) &&& (M64 - 64) ∧
    ((len - 1) &&& (M64 - 64)) % 64 = 0 ∧
    ∀ (st : CityState) (off : Nat),
      loopW s ((len - 1) / 64) off st ((len - 1) &&& (M64 - 64)) =
        some (loopGo s off st ((len - 1) &&& (M64 - 64))) := by
  have hl0 : (len - 1) &&& (M64 - 64) = 64 * ((len - 1) / 64) := land_mask (by omega)
  have hN : (len - 1) / 64 = ((len - 1) / 64 - 1) + 1 := by omega
  refine ⟨by rw [hl0]; omega, by rw [hl0]; omega, ?_⟩
  intro st off
  have hk : 64 * (((len - 1) / 64 - 1) + 1) < M64 := by
    rw [← hN, ← hl0]
    have h1 : (len - 1) &&& (M64 - 64) ≤ len - 1 := Nat.and_le_left
    have h2 : M64 = 2 ^ 64 := rfl
    omega
  rw [hl0, hN, loopW_eq_loopN s ((len - 1) / 64 - 1) off st hk, loopGo_eq_loopN]

/-- Claim C8, witness: the termination statement applied at `len = 100`. -/
theorem chunkLoop_terminates_witness :
    0 < (100 - 1) &&& (M64 - 64) ∧
    ((100 - 1) &&& (M64 - 64)) % 64 = 0 ∧
    loopW (fun _ => 0) ((100 - 1) / 64) 0 ⟨1, 2, 3, (4, 5), (6, 7)⟩
        ((100 - 1) &&& (M64 - 64)) =
      some (loopGo (fun _ => 0) 0 ⟨1, 2, 3, (4, 5), (6, 7)⟩ ((100 - 1) &&& (M64 - 64))) :=
  ⟨(chunkLoop_terminates (fun _ => 0) 100 (by norm_num) (by norm_num)).1,
   (chunkLoop_terminates (fun _ => 0) 100 (by norm_num) (by norm_num)).2.1,
   (chunkLoop_terminates (fun _ => 0) 100 (by norm_num) (by norm_num)).2.2
     ⟨1, 2, 3, (4, 5), (6, 7)⟩ 0⟩

/-- Claim C9: the hash does not collapse prefixes: the empty string is a
byte-for-byte prefix of the one-byte string `[0x00]`, and the two hash to
different values. -/
theorem cityHash64_length_sensitive :
    CityHash64 (fun _ => 0) 0 ≠ CityHash64 (fun _ => 0) 1 := by
  decide

/-- Claim C10: the fixed-multiplier overload `HashLen16(u, v)` — defined as
`Hash128to64(uint128(u, v))`, where `uint128(u, v)` has high half `u` and
low half `v` — equals the explicit-multiplier overload with the arguments
swapped and the constant `0x9ddfea08eb382d69`. -/
theorem hashLen16_overloads_agree (u v : Nat) :
    HashLen16 u v = HashLen16mul v u 0x9ddfea08eb382d69 := rfl
